import Mathlib

/-!
Verification of the BeyondTrust installer function app (Python sources
`beyond_trust_client.py` and `function_app.py`) against its specification.

The Python code is shallowly embedded: each method becomes a pure Lean
function over explicit state; HTTP exchanges become input parameters of
type `Except Nat _` (an error value is the non-2xx status on which
`raise_for_status` raises); JSON objects become structures whose optional
fields are `Option` (a `none` models an absent key, the value of Python's
`dict.get`); Python truthiness of an optional string is modelled by
`truthyStr`.  Machine time `time.time()` is modelled as an integer `now`
passed explicitly.
-/

namespace BeyondTrust

/-- Python truthiness of an optional string value: `None` and `""` are
falsy, every other string is truthy. -/
def truthyStr : Option String → Bool
  | none => false
  | some s => !s.isEmpty

/-- The token-relevant mutable fields of `BeyondTrustClient`
(`_access_token`, `_token_type`, `_token_expires_at`).  In `__init__`
they are set to `None`, `None`, `0`. -/
structure ClientState where
  access_token : Option String
  token_type : Option String
  token_expires_at : Int
deriving Repr, DecidableEq

/-- The state right after `__init__`. -/
def initState : ClientState := ⟨none, none, 0⟩

/-- The parsed JSON body of a successful `POST {siteUrl}/oauth2/token`
response: the fields read by `_get_access_token` via `token_data.get`. -/
structure TokenData where
  access_token : Option String
  token_type : Option String
  expires_in : Option Int
deriving Repr, DecidableEq

/-- The error taxonomy of the spec, as raised by the client code:
`upstreamHttpError s` is the `requests.HTTPError` from
`response.raise_for_status()` on a non-2xx status `s`, and
`authenticationError` is the `ConnectionError("Failed to obtain access
token from BeyondTrust.")`. -/
inductive BTError where
  | upstreamHttpError (status : Nat)
  | authenticationError
deriving Repr, DecidableEq

/-- The result of one call to `_get_access_token`: the returned pair or
raised error, the client state after the call, and whether a network
call (the token POST) was made. -/
structure TokenFetchResult where
  outcome : Except BTError (Option String × Option String)
  state : ClientState
  networkCall : Bool
deriving Repr

/-- Embedding of `BeyondTrustClient._get_access_token`.  `now` is the
value of `time.time()`; `resp` is the outcome of the token POST
(consulted only when the cached-token guard fails): `.error s` means
`raise_for_status` raised on status `s`, `.ok td` is the parsed 2xx
body. -/
def get_access_token (st : ClientState) (now : Int)
    (resp : Except Nat TokenData) : TokenFetchResult :=
  if truthyStr st.access_token ∧ now < st.token_expires_at - 60 then
    { outcome := .ok (st.access_token, st.token_type)
      state := st
      networkCall := false }
  else
    match resp with
    | .error s =>
      { outcome := .error (.upstreamHttpError s)
        state := st
        networkCall := true }
    | .ok td =>
      let st' : ClientState :=
        { access_token := td.access_token
          token_type := some (td.token_type.getD "Bearer")
          token_expires_at := now + td.expires_in.getD 3600 }
      if truthyStr td.access_token then
        { outcome := .ok (st'.access_token, st'.token_type)
          state := st'
          networkCall := true }
      else
        { outcome := .error .authenticationError
          state := st'
          networkCall := true }

/-- The cached-token guard of `_get_access_token`:
`self._access_token and time.time() < self._token_expires_at - 60`. -/
def cacheValid (st : ClientState) (now : Int) : Prop :=
  truthyStr st.access_token ∧ now < st.token_expires_at - 60

instance (st : ClientState) (now : Int) : Decidable (cacheValid st now) :=
  inferInstanceAs (Decidable (_ ∧ _))

/-!
Pagination (`get_all_installers` and the loop of
`_find_group_policy_by_name`).  A page sequence is a function from the
1-based `current_page` number to the decoded JSON body of that request:
`none` models a decoded body that is not a list, `some l` a list of `l`'s
records.  The Python `while True` loops are embedded with an explicit
fuel argument; a `none` overall result means the fuel ran out before the
loop ended (used to express non-termination: the loop does not end for
any fuel).
-/

/-- One decoded page: `none` when `isinstance(page_data, list)` fails. -/
abbrev Page (α : Type) := Option (List α)

/-- The loop body of `get_all_installers`, with fuel.  Arguments beyond
the page oracle: remaining fuel, `current_page`, `all_installers`
accumulated so far, and the number of page requests issued so far.
Returns `some (records, requests)` when the loop breaks, `none` when
fuel runs out first. -/
def getAllInstallersLoop (pages : Nat → Page α) :
    Nat → Nat → List α → Nat → Option (List α × Nat)
  | 0, _, _, _ => none
  | fuel + 1, current, acc, reqs =>
    match pages current with
    | none => some (acc, reqs + 1)
    | some [] => some (acc, reqs + 1)
    | some pd =>
      let acc' := acc ++ pd
      if pd.length < 100 then some (acc', reqs + 1)
      else getAllInstallersLoop pages fuel (current + 1) acc' (reqs + 1)

/-- Embedding of `BeyondTrustClient.get_all_installers`: the loop starts
at `current_page = 1` with an empty accumulator. -/
def get_all_installers (pages : Nat → Page α) (fuel : Nat) :
    Option (List α × Nat) :=
  getAllInstallersLoop pages fuel 1 [] 0

/-- A group policy record: the fields read by the client
(`policy.get('name')`, `policy.get('id')`). -/
structure GroupPolicy where
  id : Option Int
  name : Option String
deriving Repr, DecidableEq

/-- The loop of `_find_group_policy_by_name`, with fuel.  Returns
`some r` when the Python loop returns (`r` is the returned value:
`some policy` on a name match, `none` for the non-list and
all-pages-scanned cases), and `none` when fuel runs out first. -/
def findGroupPolicyLoop (pages : Nat → Page GroupPolicy)
    (group_name : String) : Nat → Nat → Option (Option GroupPolicy)
  | 0, _ => none
  | fuel + 1, current =>
    match pages current with
    | none => some none
    | some pd =>
      match pd.find? (fun policy => policy.name == some group_name) with
      | some policy => some (some policy)
      | none =>
        if pd.length < 100 then some none
        else findGroupPolicyLoop pages group_name fuel (current + 1)

/-- Embedding of `BeyondTrustClient._find_group_policy_by_name`. -/
def find_group_policy_by_name (pages : Nat → Page GroupPolicy)
    (group_name : String) (fuel : Nat) : Option (Option GroupPolicy) :=
  findGroupPolicyLoop pages group_name fuel 1

/-- A page on which the pagination loops continue to the next page: a
list of 100 or more records (for the policy scan, additionally no
matching name, stated separately). -/
def fullPage (pages : Nat → Page α) (k : Nat) : Prop :=
  ∃ l, pages k = some l ∧ 100 ≤ l.length

/-!
The installer aggregation of `GetBeyondTrustData` in `function_app.py`
(grouping by `jump_group_id`, per-group latest selection, summary
construction).  Python dicts preserve insertion order, so the
group-keyed dict of lists is modelled as an association list to which
new keys are appended; `sorted(..., key=..., reverse=True)` is a stable
descending sort, modelled by a stable descending insertion sort.
-/

/-- An installer record: the fields read by `function_app.py` via
`installer.get(...)`. -/
structure Installer where
  installer_id : Option String
  jump_group_id : Option Int
  name : Option String
  expiration_timestamp : Option String
deriving Repr, DecidableEq

/-- The sort key `lambda x: x.get('expiration_timestamp', '')`. -/
def instKey (x : Installer) : String := x.expiration_timestamp.getD ""

/-- Python's `<` on strings: lexicographic comparison of the character
sequences by code point (computed on `String.data` so that it evaluates
by kernel reduction; `strLt_iff` below identifies it with `<` on
`String`). -/
def strLt (a b : String) : Bool := decide (a.data < b.data)

/-- Insert `x` into a descending-sorted list, before the first element
whose key is not greater than `x`'s: the placement Python's stable
`sorted(..., reverse=True)` gives an element relative to later ones. -/
def insertDesc (key : α → String) (x : α) : List α → List α
  | [] => [x]
  | y :: ys =>
    if strLt (key x) (key y) then y :: insertDesc key x ys
    else x :: y :: ys

/-- Stable descending sort by a string key: the semantics of Python's
`sorted(l, key=key, reverse=True)` (same multiset, keys descending,
elements with equal keys in original order). -/
def sortDesc (key : α → String) : List α → List α
  | [] => []
  | x :: xs => insertDesc key x (sortDesc key xs)

/-- How Python renders an optional integer inside an f-string:
`None` for an absent value. -/
def optIntStr : Option Int → String
  | none => "None"
  | some i => toString i

/-- How Python renders an optional string inside an f-string. -/
def optStr : Option String → String
  | none => "None"
  | some s => s

/-- One step of the grouping loop: `installers_by_group` gains key
`installer.jump_group_id` if absent (appended, preserving dict insertion
order), then the installer is appended to its group's list. -/
def addInstaller (d : List (Option Int × List Installer))
    (ins : Installer) : List (Option Int × List Installer) :=
  if (d.lookup ins.jump_group_id).isSome then
    d.map (fun p =>
      if p.1 == ins.jump_group_id then (p.1, p.2 ++ [ins]) else p)
  else
    d ++ [(ins.jump_group_id, [ins])]

/-- The `installers_by_group` dict after the grouping loop, as an
insertion-ordered association list. -/
def buildBuckets (l : List Installer) :
    List (Option Int × List Installer) :=
  l.foldl addInstaller []

/-- One output record of `GetBeyondTrustData` (keys of the dict appended
to `installer_details_output`). -/
structure InstallerSummary where
  JumpGroupName : String
  InstallerName : Option String
  InstallerID : Option String
  ExpirationDate : Option String
  WindowsDownloadURL : String
  MacDownloadURL : String
deriving Repr, DecidableEq

/-- `jump_group_map.get(group_id, f"Unknown Group (ID: {group_id})")`:
the map has integer keys, so a `None` group id always falls back. -/
def groupNameFor (gmap : List (Int × String)) (gid : Option Int) :
    String :=
  (match gid with
   | some i => gmap.lookup i
   | none => none).getD ("Unknown Group (ID: " ++ optIntStr gid ++ ")")

/-- The summary built for one group from its latest installer. -/
def mkSummary (site : String) (gmap : List (Int × String))
    (gid : Option Int) (latest : Installer) : InstallerSummary :=
  { JumpGroupName := groupNameFor gmap gid
    InstallerName := latest.name
    InstallerID := latest.installer_id
    ExpirationDate := latest.expiration_timestamp
    WindowsDownloadURL := site ++ "/download_client_connector?jc=" ++
      optStr latest.installer_id ++ "&p=winNT-64-msi"
    MacDownloadURL := site ++ "/download_client_connector?jc=" ++
      optStr latest.installer_id ++ "&p=mac-osx-x86" }

/-- The body of the per-group loop of `GetBeyondTrustData`: sort the
group's installers descending by expiration timestamp and, if the
sorted list is nonempty (`if sorted_installers:`), append the summary
of its first element to the output. -/
def summStep (site : String) (gmap : List (Int × String))
    (out : List InstallerSummary) (p : Option Int × List Installer) :
    List InstallerSummary :=
  match sortDesc instKey p.2 with
  | [] => out
  | latest :: _ => out ++ [mkSummary site gmap p.1 latest]

/-- Embedding of the aggregation section of `GetBeyondTrustData`: when
the installer list is nonempty (`if all_installers:`), group the
installers and run the per-group loop in dict iteration order; an empty
installer list leaves `installer_details_output` empty. -/
def summarize (site : String) (gmap : List (Int × String))
    (l : List Installer) : List InstallerSummary :=
  if l.isEmpty then []
  else (buildBuckets l).foldl (summStep site gmap) []

/-- The insertion-ordered distinct keys of a Python dict built by
repeated `d[k] = ...` insertion: first occurrence order. -/
def dedupFirst (l : List (Option Int)) : List (Option Int) :=
  l.foldl (fun acc g => if g ∈ acc then acc else acc ++ [g]) []

/-- Modelled from the spec: "the single record with the maximum
`expirationTimestamp` (string comparison, ... ties broken by original
relative order ..., first-encountered wins among equal keys)" — the
first element of the list attaining the maximal key. -/
def firstMax (key : α → String) : List α → Option α
  | [] => none
  | x :: xs =>
    match firstMax key xs with
    | none => some x
    | some m => if strLt (key x) (key m) then some m else some x

/-!
`create_jump_group_with_permissions` and the HTTP request shape of
`_make_api_request`.  In the `requests` library,
`session.request(method, url, headers=..., params=p)` encodes `p` into
the URL query string; the request body is what is passed via `data=` or
`json=`, and `_make_api_request` passes neither, so its requests always
have an empty body.
-/

/-- The observable shape of one HTTP request issued through
`_make_api_request` (headers aside): `queryParams` is what `requests`
builds from the `params=` keyword, `body` from `data=`/`json=`. -/
structure HttpRequest where
  method : String
  url : String
  queryParams : List (String × String)
  body : List (String × String)
deriving Repr, DecidableEq

/-- The request `_make_api_request(url, method, params)` hands to
`self.session.request(method, url, headers=headers, params=params)`:
the params travel in the query string and the body is empty. -/
def make_api_request_req (url method : String)
    (params : List (String × String)) : HttpRequest :=
  { method := method, url := url, queryParams := params, body := [] }

/-- The Jump Group creation request of
`create_jump_group_with_permissions` step 1:
`_make_api_request(f"{site}/api/config/v1/jump-group", method='POST',
params={"name": name, "code_name": code_name})`. -/
def jumpGroupCreateRequest (site name code_name : String) :
    HttpRequest :=
  make_api_request_req (site ++ "/api/config/v1/jump-group") "POST"
    [("name", name), ("code_name", code_name)]

/-- One entry of the `permissions_map` values: the keys read via
`permissions.get(...)` (`none` models an absent key). -/
structure Perms where
  start_session : Option Bool
  manage : Option Bool
  administrator : Option Bool
deriving Repr, DecidableEq

/-- One permission-assignment POST as issued in step 2: its URL and the
`permission_payload` fields. -/
structure PermRequest where
  url : String
  group_policy_id : Option Int
  session_start_permission : Bool
  session_manage_permission : Bool
  is_admin : Bool
deriving Repr, DecidableEq

/-- The parsed body of the jump-group creation response: the client only
reads `created_jump_group.get('id')`. -/
structure JumpGroupResp where
  id : Option Int
deriving Repr, DecidableEq

/-- The external collaborators of `create_jump_group_with_permissions`:
the creation POST outcome, the result of each
`_find_group_policy_by_name` call (`none` = not found), and the outcome
of the `k`-th permission POST issued (`some s` = `raise_for_status`
raised on status `s`). -/
structure ProvisionEnv where
  createResp : Except Nat JumpGroupResp
  lookup : String → Option GroupPolicy
  permPostErr : Nat → Option Nat

/-- The permission request built for one found policy. -/
def mkPermRequest (site : String) (jump_group_id : Option Int)
    (policy : GroupPolicy) (permissions : Perms) : PermRequest :=
  { url := site ++ "/api/config/v1/jump-group/" ++
      optIntStr jump_group_id ++ "/group-policy"
    group_policy_id := policy.id
    session_start_permission := permissions.start_session.getD false
    session_manage_permission := permissions.manage.getD false
    is_admin := permissions.administrator.getD false }

/-- Step 2 of `create_jump_group_with_permissions`: iterate over the
`permissions_map` entries in order; a not-found policy is skipped
(`continue`), a found one produces exactly one permission POST, and a
POST whose `raise_for_status` raises aborts the loop.  `k` counts the
POSTs already issued.  Returns the issued requests and the propagated
HTTP error status, if any. -/
def assignPerms (env : ProvisionEnv) (site : String)
    (jump_group_id : Option Int) :
    List (String × Perms) → Nat → List PermRequest × Option Nat
  | [], _ => ([], none)
  | (group_name, permissions) :: rest, k =>
    match env.lookup group_name with
    | none => assignPerms env site jump_group_id rest k
    | some policy =>
      let req := mkPermRequest site jump_group_id policy permissions
      match env.permPostErr k with
      | some s => ([req], some s)
      | none =>
        let r := assignPerms env site jump_group_id rest (k + 1)
        (req :: r.1, r.2)

/-- Embedding of `BeyondTrustClient.create_jump_group_with_permissions`:
create the group, extract `id` via `.get('id')`, assign permissions;
an uncaught HTTP error anywhere propagates (`.error`), otherwise the
created object is returned together with the permission POSTs that were
issued. -/
def create_jump_group_with_permissions (env : ProvisionEnv)
    (site : String) (permissions_map : List (String × Perms)) :
    Except Nat (JumpGroupResp × List PermRequest) :=
  match env.createResp with
  | .error s => .error s
  | .ok created =>
    let jump_group_id := created.id
    let r := assignPerms env site jump_group_id permissions_map 0
    match r.2 with
    | some s => .error s
    | none => .ok (created, r.1)

/-- The permission POSTs `create_jump_group_with_permissions` issues
when none of them raises: one per `permissions_map` entry whose policy
lookup succeeds, in map order; not-found entries contribute nothing. -/
def permRequestsOf (env : ProvisionEnv) (site : String)
    (jump_group_id : Option Int) (permissions_map : List (String × Perms)) :
    List PermRequest :=
  permissions_map.filterMap (fun e =>
    (env.lookup e.1).map (fun policy =>
      mkPermRequest site jump_group_id policy e.2))

/-- Page `k` contains a policy whose `name` matches the searched group
name (the `for policy in page_data` loop of
`_find_group_policy_by_name` returns on page `k`). -/
def pageHasMatch (pages : Nat → Page GroupPolicy) (group_name : String)
    (k : Nat) : Prop :=
  ∃ l, pages k = some l ∧
    (l.find? (fun policy => policy.name == some group_name)).isSome = true

/-- A concrete page sequence with pages of sizes 100, 100, 37 (the
pagination test vector of the spec). -/
def pagesExample : Nat → Page Nat := fun k =>
  if k = 1 then some (List.replicate 100 0)
  else if k = 2 then some (List.replicate 100 1)
  else if k = 3 then some (List.replicate 37 2)
  else some []

/-- The aggregation test vector of the spec: two installers in group 1,
one in group 2. -/
def sampleInstallers : List Installer :=
  [ ⟨some "i1", some 1, some "a", some "2024-01-01"⟩,
    ⟨some "i2", some 1, some "b", some "2024-06-01"⟩,
    ⟨some "i3", some 2, some "c", some "2023-01-01"⟩ ]

end BeyondTrust

namespace BeyondTrust

lemma networkCall_of_not_cacheValid (st : ClientState) (now : Int)
    (resp : Except Nat TokenData) (h : ¬ cacheValid st now) :
    (get_access_token st now resp).networkCall = true := by
  unfold cacheValid at h
  unfold get_access_token
  rw [if_neg h]
  cases resp with
  | error s => rfl
  | ok td =>
    dsimp only
    split <;> rfl

lemma get_access_token_cached (st : ClientState) (now : Int)
    (resp : Except Nat TokenData) (h : cacheValid st now) :
    get_access_token st now resp =
      { outcome := .ok (st.access_token, st.token_type)
        state := st
        networkCall := false } := by
  unfold cacheValid at h
  unfold get_access_token
  rw [if_pos h]

lemma get_access_token_fresh_ok (st : ClientState) (now : Int)
    (td : TokenData) (h : ¬ cacheValid st now)
    (ht : truthyStr td.access_token = true) :
    get_access_token st now (.ok td) =
      { outcome := .ok (td.access_token, some (td.token_type.getD "Bearer"))
        state := { access_token := td.access_token
                   token_type := some (td.token_type.getD "Bearer")
                   token_expires_at := now + td.expires_in.getD 3600 }
        networkCall := true } := by
  unfold cacheValid at h
  unfold get_access_token
  rw [if_neg h]
  dsimp only
  rw [if_pos ht]

/-- C1: every call to `_get_access_token` with a truthy cached token and
`now < expiresAt - 60` returns the cached `(token, scheme)` pair
unchanged with no network call; every other call makes the one exchange
request, and on a 2xx response with a truthy `access_token` the cache is
replaced with that token, its `token_type` (default `"Bearer"` when
absent) and expiry `now + expires_in` (default `3600` when absent), and
that pair is returned. -/
theorem get_access_token_spec (st : ClientState) (now : Int)
    (resp : Except Nat TokenData) :
    (cacheValid st now →
      get_access_token st now resp =
        { outcome := .ok (st.access_token, st.token_type)
          state := st
          networkCall := false })
    ∧ (¬ cacheValid st now →
        (get_access_token st now resp).networkCall = true
        ∧ ∀ td, resp = .ok td → truthyStr td.access_token = true →
            get_access_token st now resp =
              { outcome := .ok (td.access_token,
                  some (td.token_type.getD "Bearer"))
                state := { access_token := td.access_token
                           token_type := some (td.token_type.getD "Bearer")
                           token_expires_at := now + td.expires_in.getD 3600 }
                networkCall := true }) := by
  refine ⟨fun h => get_access_token_cached st now resp h,
    fun h => ⟨networkCall_of_not_cacheValid st now resp h, ?_⟩⟩
  rintro td rfl ht
  exact get_access_token_fresh_ok st now td h ht

theorem get_access_token_spec_witness :
    get_access_token ⟨some "t", some "Bearer", 1000⟩ 100 (.error 401) =
      { outcome := .ok (some "t", some "Bearer")
        state := ⟨some "t", some "Bearer", 1000⟩
        networkCall := false } ∧
    get_access_token initState 100 (.ok ⟨some "new", none, none⟩) =
      { outcome := .ok (some "new", some "Bearer")
        state := ⟨some "new", some "Bearer", 3700⟩
        networkCall := true } :=
  ⟨(get_access_token_spec ⟨some "t", some "Bearer", 1000⟩ 100
      (.error 401)).1 (by decide),
   ((get_access_token_spec initState 100
      (.ok ⟨some "new", none, none⟩)).2 (by decide)).2
      ⟨some "new", none, none⟩ rfl (by decide)⟩

/-- C6: when the cached-token guard fails, `_get_access_token` raises
the authentication error (`ConnectionError`) exactly when the 2xx
response body has no truthy `access_token`, raises the upstream HTTP
error for status `s` exactly when the exchange itself returns non-2xx
status `s`, and in every other case returns the token without
raising. -/
theorem token_exchange_errors (st : ClientState) (now : Int)
    (resp : Except Nat TokenData) (h : ¬ cacheValid st now) :
    ((get_access_token st now resp).outcome = .error .authenticationError ↔
        ∃ td, resp = .ok td ∧ truthyStr td.access_token = false)
    ∧ (∀ s, ((get_access_token st now resp).outcome =
          .error (.upstreamHttpError s) ↔ resp = .error s))
    ∧ (∀ td, resp = .ok td → truthyStr td.access_token = true →
        (get_access_token st now resp).outcome =
          .ok (td.access_token, some (td.token_type.getD "Bearer"))) := by
  unfold cacheValid at h
  unfold get_access_token
  rw [if_neg h]
  cases resp with
  | error s => simp
  | ok td =>
    dsimp only
    by_cases ht : truthyStr td.access_token = true
    · rw [if_pos ht]
      simp [ht]
    · rw [if_neg ht]
      simp_all

theorem token_exchange_errors_witness :
    (get_access_token initState 50
        (.ok ⟨none, some "X", some 10⟩)).outcome =
      .error .authenticationError :=
  ((token_exchange_errors initState 50 (.ok ⟨none, some "X", some 10⟩)
      (by decide)).1).2 ⟨⟨none, some "X", some 10⟩, rfl, rfl⟩

/-- C8: every `(token, scheme)` pair `_get_access_token` returns has a
truthy token, and after an exchange that raised for lack of an
access token the cached token is falsy, so the next call (for any time
and response) performs a new exchange instead of serving the failed
result from cache. -/
theorem token_truthiness_invariant (st : ClientState) (now : Int)
    (resp : Except Nat TokenData) :
    (∀ t ty, (get_access_token st now resp).outcome = .ok (t, ty) →
        truthyStr t = true)
    ∧ ((get_access_token st now resp).outcome = .error .authenticationError →
        truthyStr (get_access_token st now resp).state.access_token = false
        ∧ ∀ now₂ resp₂,
            (get_access_token (get_access_token st now resp).state now₂
              resp₂).networkCall = true) := by
  by_cases h : cacheValid st now
  · rw [get_access_token_cached st now resp h]
    refine ⟨?_, by simp⟩
    rintro t ty hp
    cases hp
    exact h.1
  · have hn := h
    unfold cacheValid at h
    unfold get_access_token
    rw [if_neg h]
    cases resp with
    | error s => simp
    | ok td =>
      dsimp only
      by_cases ht : truthyStr td.access_token = true
      · rw [if_pos ht]
        refine ⟨?_, by simp⟩
        rintro t ty hp
        cases hp
        exact ht
      · rw [if_neg ht]
        refine ⟨by simp, fun _ => ⟨by simpa using ht, ?_⟩⟩
        intro now₂ resp₂
        apply networkCall_of_not_cacheValid
        intro hc
        exact ht (by simpa using hc.1)

theorem token_truthiness_invariant_witness :
    truthyStr (get_access_token initState 50
        (.ok ⟨none, some "X", some 10⟩)).state.access_token = false :=
  ((token_truthiness_invariant initState 50
      (.ok ⟨none, some "X", some 10⟩)).2 rfl).1

end BeyondTrust

namespace BeyondTrust

lemma loop_step_nonlist (pages : Nat → Page α) (fuel current : Nat)
    (acc : List α) (reqs : Nat) (h : pages current = none) :
    getAllInstallersLoop pages (fuel + 1) current acc reqs =
      some (acc, reqs + 1) := by
  simp only [getAllInstallersLoop, h]

lemma loop_step_empty (pages : Nat → Page α) (fuel current : Nat)
    (acc : List α) (reqs : Nat) (h : pages current = some []) :
    getAllInstallersLoop pages (fuel + 1) current acc reqs =
      some (acc, reqs + 1) := by
  simp only [getAllInstallersLoop, h]

lemma loop_step_short (pages : Nat → Page α) (fuel current : Nat)
    (acc : List α) (reqs : Nat) (a : α) (as : List α)
    (h : pages current = some (a :: as))
    (hlt : (a :: as).length < 100) :
    getAllInstallersLoop pages (fuel + 1) current acc reqs =
      some (acc ++ (a :: as), reqs + 1) := by
  simp only [getAllInstallersLoop, h]
  rw [if_pos hlt]

lemma loop_step_full (pages : Nat → Page α) (fuel current : Nat)
    (acc : List α) (reqs : Nat) (a : α) (as : List α)
    (h : pages current = some (a :: as))
    (hge : ¬ (a :: as).length < 100) :
    getAllInstallersLoop pages (fuel + 1) current acc reqs =
      getAllInstallersLoop pages fuel (current + 1) (acc ++ (a :: as))
        (reqs + 1) := by
  simp only [getAllInstallersLoop, h]
  rw [if_neg hge]

lemma scan_step_nonlist (pages : Nat → Page GroupPolicy) (gname : String)
    (fuel current : Nat) (h : pages current = none) :
    findGroupPolicyLoop pages gname (fuel + 1) current = some none := by
  simp only [findGroupPolicyLoop, h]

lemma scan_step_found (pages : Nat → Page GroupPolicy) (gname : String)
    (fuel current : Nat) (l : List GroupPolicy) (policy : GroupPolicy)
    (h : pages current = some l)
    (hm : l.find? (fun policy => policy.name == some gname) = some policy) :
    findGroupPolicyLoop pages gname (fuel + 1) current =
      some (some policy) := by
  simp only [findGroupPolicyLoop, h, hm]

lemma scan_step_notfound_short (pages : Nat → Page GroupPolicy)
    (gname : String) (fuel current : Nat) (l : List GroupPolicy)
    (h : pages current = some l)
    (hm : l.find? (fun policy => policy.name == some gname) = none)
    (hlt : l.length < 100) :
    findGroupPolicyLoop pages gname (fuel + 1) current = some none := by
  simp only [findGroupPolicyLoop, h, hm]
  rw [if_pos hlt]

lemma scan_step_notfound_full (pages : Nat → Page GroupPolicy)
    (gname : String) (fuel current : Nat) (l : List GroupPolicy)
    (h : pages current = some l)
    (hm : l.find? (fun policy => policy.name == some gname) = none)
    (hge : ¬ l.length < 100) :
    findGroupPolicyLoop pages gname (fuel + 1) current =
      findGroupPolicyLoop pages gname fuel (current + 1) := by
  simp only [findGroupPolicyLoop, h, hm]
  rw [if_neg hge]

end BeyondTrust

namespace BeyondTrust

lemma loop_terminates_of_stop (pages : Nat → Page α) :
    ∀ (n start : Nat), ¬ fullPage pages (start + n) →
    ∀ (fuel : Nat) (acc : List α) (reqs : Nat), n < fuel →
    ∃ r, getAllInstallersLoop pages fuel start acc reqs = some r := by
  intro n
  induction n with
  | zero =>
    intro start h fuel acc reqs hf
    obtain ⟨fuel, rfl⟩ : ∃ f, fuel = f + 1 := ⟨fuel - 1, by omega⟩
    rw [Nat.add_zero] at h
    cases hp : pages start with
    | none => exact ⟨(acc, reqs + 1), loop_step_nonlist pages fuel start acc reqs hp⟩
    | some l =>
      cases l with
      | nil => exact ⟨(acc, reqs + 1), loop_step_empty pages fuel start acc reqs hp⟩
      | cons a as =>
        have hlt : (a :: as).length < 100 := by
          by_contra hge
          exact h ⟨a :: as, hp, Nat.le_of_not_lt hge⟩
        exact ⟨(acc ++ (a :: as), reqs + 1),
          loop_step_short pages fuel start acc reqs a as hp hlt⟩
  | succ n ih =>
    intro start h fuel acc reqs hf
    obtain ⟨fuel, rfl⟩ : ∃ f, fuel = f + 1 := ⟨fuel - 1, by omega⟩
    cases hp : pages start with
    | none => exact ⟨(acc, reqs + 1), loop_step_nonlist pages fuel start acc reqs hp⟩
    | some l =>
      cases l with
      | nil => exact ⟨(acc, reqs + 1), loop_step_empty pages fuel start acc reqs hp⟩
      | cons a as =>
        by_cases hlt : (a :: as).length < 100
        · exact ⟨(acc ++ (a :: as), reqs + 1),
            loop_step_short pages fuel start acc reqs a as hp hlt⟩
        · have h' : ¬ fullPage pages (start + 1 + n) := by
            have he : start + 1 + n = start + (n + 1) := by omega
            rw [he]; exact h
          obtain ⟨r, hr⟩ :=
            ih (start + 1) h' fuel (acc ++ (a :: as)) (reqs + 1) (by omega)
          exact ⟨r, by
            rw [loop_step_full pages fuel start acc reqs a as hp hlt]
            exact hr⟩

lemma loop_diverges (pages : Nat → Page α)
    (hfull : ∀ k, fullPage pages k) :
    ∀ (fuel current : Nat) (acc : List α) (reqs : Nat),
      getAllInstallersLoop pages fuel current acc reqs = none := by
  intro fuel
  induction fuel with
  | zero => intro current acc reqs; rfl
  | succ fuel ih =>
    intro current acc reqs
    obtain ⟨l, hp, hl⟩ := hfull current
    cases l with
    | nil => simp at hl
    | cons a as =>
      have hlt : ¬ (a :: as).length < 100 := Nat.not_lt.mpr hl
      rw [loop_step_full pages fuel current acc reqs a as hp hlt]
      exact ih (current + 1) (acc ++ (a :: as)) (reqs + 1)

lemma scan_terminates_of_stop (pages : Nat → Page GroupPolicy)
    (gname : String) :
    ∀ (n start : Nat),
      (¬ fullPage pages (start + n) ∨ pageHasMatch pages gname (start + n)) →
    ∀ (fuel : Nat), n < fuel →
    ∃ r, findGroupPolicyLoop pages gname fuel start = some r := by
  intro n
  induction n with
  | zero =>
    intro start h fuel hf
    obtain ⟨fuel, rfl⟩ : ∃ f, fuel = f + 1 := ⟨fuel - 1, by omega⟩
    rw [Nat.add_zero] at h
    cases hp : pages start with
    | none => exact ⟨none, scan_step_nonlist pages gname fuel start hp⟩
    | some l =>
      cases hm : l.find? (fun policy => policy.name == some gname) with
      | some policy =>
        exact ⟨some policy, scan_step_found pages gname fuel start l policy hp hm⟩
      | none =>
        by_cases hlt : l.length < 100
        · exact ⟨none, scan_step_notfound_short pages gname fuel start l hp hm hlt⟩
        · exfalso
          rcases h with h | h
          · exact h ⟨l, hp, Nat.le_of_not_lt hlt⟩
          · obtain ⟨l', hp', hs⟩ := h
            rw [hp] at hp'
            cases hp'
            rw [hm] at hs
            simp at hs
  | succ n ih =>
    intro start h fuel hf
    obtain ⟨fuel, rfl⟩ : ∃ f, fuel = f + 1 := ⟨fuel - 1, by omega⟩
    cases hp : pages start with
    | none => exact ⟨none, scan_step_nonlist pages gname fuel start hp⟩
    | some l =>
      cases hm : l.find? (fun policy => policy.name == some gname) with
      | some policy =>
        exact ⟨some policy, scan_step_found pages gname fuel start l policy hp hm⟩
      | none =>
        by_cases hlt : l.length < 100
        · exact ⟨none, scan_step_notfound_short pages gname fuel start l hp hm hlt⟩
        · have h' : ¬ fullPage pages (start + 1 + n) ∨
              pageHasMatch pages gname (start + 1 + n) := by
            have he : start + 1 + n = start + (n + 1) := by omega
            rw [he]; exact h
          obtain ⟨r, hr⟩ := ih (start + 1) h' fuel (by omega)
          exact ⟨r, by
            rw [scan_step_notfound_full pages gname fuel start l hp hm hlt]
            exact hr⟩

lemma scan_diverges (pages : Nat → Page GroupPolicy) (gname : String)
    (h : ∀ k, fullPage pages k ∧ ¬ pageHasMatch pages gname k) :
    ∀ (fuel current : Nat),
      findGroupPolicyLoop pages gname fuel current = none := by
  intro fuel
  induction fuel with
  | zero => intro current; rfl
  | succ fuel ih =>
    intro current
    obtain ⟨⟨l, hp, hl⟩, hnm⟩ := h current
    have hm : l.find? (fun policy => policy.name == some gname) = none := by
      cases hm : l.find? (fun policy => policy.name == some gname) with
      | none => rfl
      | some p => exact absurd ⟨l, hp, by simp [hm]⟩ hnm
    have hlt : ¬ l.length < 100 := Nat.not_lt.mpr hl
    rw [scan_step_notfound_full pages gname fuel current l hp hm hlt]
    exact ih (current + 1)

end BeyondTrust

namespace BeyondTrust

/-- C2: `get_all_installers` pages with `per_page = 100` from a 1-based
incrementing `current_page` and stops by the first applicable rule: a
non-list page stops without raising and returns the records accumulated
so far, an empty page stops with the accumulated records, a page with
fewer than 100 records is included and then stops, and otherwise the
next page is requested; pages of sizes `[100, 100, 37]` yield 237
records after exactly 3 requests, an empty first page yields 0 records
after exactly 1 request, and a non-list first page yields 0 records
after exactly 1 request without an error. -/
theorem get_all_installers_spec :
    (∀ (α : Type) (pages : Nat → Page α) (fuel current : Nat)
        (acc : List α) (reqs : Nat),
      (pages current = none →
        getAllInstallersLoop pages (fuel + 1) current acc reqs =
          some (acc, reqs + 1))
      ∧ (pages current = some [] →
          getAllInstallersLoop pages (fuel + 1) current acc reqs =
            some (acc, reqs + 1))
      ∧ (∀ pd, pages current = some pd → pd ≠ [] → pd.length < 100 →
          getAllInstallersLoop pages (fuel + 1) current acc reqs =
            some (acc ++ pd, reqs + 1))
      ∧ (∀ pd, pages current = some pd → ¬ pd.length < 100 →
          getAllInstallersLoop pages (fuel + 1) current acc reqs =
            getAllInstallersLoop pages fuel (current + 1) (acc ++ pd)
              (reqs + 1)))
    ∧ (get_all_installers pagesExample 5).map
        (fun r => (r.1.length, r.2)) = some (237, 3)
    ∧ get_all_installers (fun _ => (some [] : Page Nat)) 5 = some ([], 1)
    ∧ get_all_installers (fun _ => (none : Page Nat)) 5 = some ([], 1) := by
  refine ⟨?_, by rfl, rfl, rfl⟩
  intro α pages fuel current acc reqs
  refine ⟨loop_step_nonlist pages fuel current acc reqs,
    loop_step_empty pages fuel current acc reqs, ?_, ?_⟩
  · intro pd h hne hlt
    cases pd with
    | nil => exact absurd rfl hne
    | cons a as => exact loop_step_short pages fuel current acc reqs a as h hlt
  · intro pd h hge
    cases pd with
    | nil => simp at hge
    | cons a as => exact loop_step_full pages fuel current acc reqs a as h hge

theorem get_all_installers_spec_witness :
    getAllInstallersLoop (fun _ => (none : Page Nat)) 3 1 [] 0 =
      some ([], 1) :=
  (get_all_installers_spec.1 Nat (fun _ => none) 2 1 [] 0).1 rfl

/-- C9: the pagination loops of `get_all_installers` and
`_find_group_policy_by_name` terminate whenever some page is non-list,
empty or shorter than 100 records (for the policy scan, also when some
page contains a policy with the searched name), and neither loop
terminates for any amount of fuel when every page is a full list of at
least 100 records (with no matching name, for the scan). -/
theorem pagination_termination :
    (∀ (α : Type) (pages : Nat → Page α) (n : Nat),
        ¬ fullPage pages (1 + n) →
        ∀ fuel, n < fuel → ∃ r, get_all_installers pages fuel = some r)
    ∧ (∀ (α : Type) (pages : Nat → Page α),
        (∀ k, fullPage pages k) →
        ∀ fuel, get_all_installers pages fuel = none)
    ∧ (∀ (pages : Nat → Page GroupPolicy) (gname : String) (n : Nat),
        (¬ fullPage pages (1 + n) ∨ pageHasMatch pages gname (1 + n)) →
        ∀ fuel, n < fuel →
          ∃ r, find_group_policy_by_name pages gname fuel = some r)
    ∧ (∀ (pages : Nat → Page GroupPolicy) (gname : String),
        (∀ k, fullPage pages k ∧ ¬ pageHasMatch pages gname k) →
        ∀ fuel, find_group_policy_by_name pages gname fuel = none) := by
  refine ⟨?_, ?_, ?_, ?_⟩
  · intro α pages n h fuel hf
    exact loop_terminates_of_stop pages n 1 h fuel [] 0 hf
  · intro α pages h fuel
    exact loop_diverges pages h fuel 1 [] 0
  · intro pages gname n h fuel hf
    exact scan_terminates_of_stop pages gname n 1 h fuel hf
  · intro pages gname h fuel
    exact scan_diverges pages gname h fuel 1

theorem pagination_termination_witness :
    (∃ r, get_all_installers (fun _ => (some [] : Page Nat)) 1 = some r)
    ∧ get_all_installers
        (fun _ => (some (List.replicate 100 0) : Page Nat)) 7 = none :=
  ⟨pagination_termination.1 Nat (fun _ => some []) 0
      (fun hfull => by
        obtain ⟨l, hl, hlen⟩ := hfull
        cases hl
        simp at hlen)
      1 (by decide),
   pagination_termination.2.1 Nat (fun _ => some (List.replicate 100 0))
      (fun _ => ⟨List.replicate 100 0, rfl, by simp⟩) 7⟩

end BeyondTrust

namespace BeyondTrust

lemma strLt_iff (a b : String) : strLt a b = true ↔ a < b := by
  rw [String.lt_iff_toList_lt]
  exact decide_eq_true_iff

lemma insertDesc_length (key : α → String) (x : α) :
    ∀ l, (insertDesc key x l).length = l.length + 1 := by
  intro l
  induction l with
  | nil => rfl
  | cons y ys ih =>
    dsimp [insertDesc]
    split
    · simp [ih]
    · rfl

lemma sortDesc_length (key : α → String) :
    ∀ l, (sortDesc key l).length = l.length := by
  intro l
  induction l with
  | nil => rfl
  | cons x xs ih =>
    dsimp [sortDesc]
    rw [insertDesc_length, ih]

lemma head_insertDesc (key : α → String) (x : α) :
    ∀ l, (insertDesc key x l).head? =
      some (match l.head? with
            | none => x
            | some y => if strLt (key x) (key y) then y else x) := by
  intro l
  cases l with
  | nil => rfl
  | cons y ys =>
    dsimp [insertDesc]
    split
    · simp_all
    · simp_all

lemma firstMax_isSome (key : α → String) (x : α) (xs : List α) :
    (firstMax key (x :: xs)).isSome = true := by
  dsimp [firstMax]
  cases firstMax key xs with
  | none => rfl
  | some m =>
    dsimp
    split <;> rfl

lemma head_sortDesc (key : α → String) :
    ∀ l, (sortDesc key l).head? = firstMax key l := by
  intro l
  induction l with
  | nil => rfl
  | cons x xs ih =>
    dsimp [sortDesc, firstMax]
    rw [head_insertDesc, ih]
    cases firstMax key xs with
    | none => rfl
    | some m =>
      dsimp
      split <;> rfl

lemma firstMax_le (key : α → String) :
    ∀ (l : List α) (m : α), firstMax key l = some m →
      ∀ y ∈ l, key y ≤ key m := by
  intro l
  induction l with
  | nil => intro m hm; cases hm
  | cons x xs ih =>
    intro m hm y hy
    dsimp [firstMax] at hm
    cases hfm : firstMax key xs with
    | none =>
      rw [hfm] at hm
      cases hm
      cases hy with
      | head => exact le_refl _
      | tail _ hy =>
        cases xs with
        | nil => cases hy
        | cons a as => exact absurd (firstMax_isSome key a as) (by simp [hfm])
    | some m' =>
      rw [hfm] at hm
      dsimp at hm
      by_cases hc : strLt (key x) (key m') = true
      · rw [if_pos hc] at hm
        cases hm
        cases hy with
        | head => exact le_of_lt ((strLt_iff _ _).mp hc)
        | tail _ hy => exact ih m hfm y hy
      · rw [if_neg hc] at hm
        cases hm
        cases hy with
        | head => exact le_refl _
        | tail _ hy =>
          exact le_trans (ih m' hfm y hy)
            (not_lt.mp (fun hlt => hc ((strLt_iff _ _).mpr hlt)))

lemma firstMax_split (key : α → String) :
    ∀ (l : List α) (m : α), firstMax key l = some m →
      ∃ l₁ l₂, l = l₁ ++ m :: l₂ ∧ ∀ y ∈ l₁, key y < key m := by
  intro l
  induction l with
  | nil => intro m hm; cases hm
  | cons x xs ih =>
    intro m hm
    dsimp [firstMax] at hm
    cases hfm : firstMax key xs with
    | none =>
      rw [hfm] at hm
      cases hm
      exact ⟨[], xs, rfl, by simp⟩
    | some m' =>
      rw [hfm] at hm
      dsimp at hm
      by_cases hc : strLt (key x) (key m') = true
      · rw [if_pos hc] at hm
        cases hm
        obtain ⟨l₁, l₂, heq, hlt⟩ := ih m hfm
        refine ⟨x :: l₁, l₂, by rw [heq, List.cons_append], ?_⟩
        intro y hy
        cases hy with
        | head => exact (strLt_iff _ _).mp hc
        | tail _ hy => exact hlt y hy
      · rw [if_neg hc] at hm
        cases hm
        exact ⟨[], xs, rfl, by simp⟩

/-- C3: for every nonempty bucket, the selected installer (the head of
the stable descending sort by the raw `expiration_timestamp` string,
missing timestamps read as `""`) is the first element of the bucket in
original order whose key is maximal: it agrees with `firstMax`, every
strictly earlier element has a strictly smaller key, and no element of
the bucket has a larger key. -/
theorem latest_installer_selection (l : List Installer) (h : l ≠ []) :
    ∃ m l₁ l₂,
      (sortDesc instKey l).head? = some m ∧
      firstMax instKey l = some m ∧
      l = l₁ ++ m :: l₂ ∧
      (∀ y ∈ l₁, instKey y < instKey m) ∧
      (∀ y ∈ l, instKey y ≤ instKey m) := by
  cases l with
  | nil => exact absurd rfl h
  | cons x xs =>
    obtain ⟨m, hm⟩ := Option.isSome_iff_exists.mp (firstMax_isSome instKey x xs)
    obtain ⟨l₁, l₂, heq, hlt⟩ := firstMax_split instKey (x :: xs) m hm
    exact ⟨m, l₁, l₂, by rw [head_sortDesc]; exact hm, hm, heq, hlt,
      firstMax_le instKey (x :: xs) m hm⟩

theorem latest_installer_selection_witness :
    ∃ m l₁ l₂,
      (sortDesc instKey sampleInstallers).head? = some m ∧
      firstMax instKey sampleInstallers = some m ∧
      sampleInstallers = l₁ ++ m :: l₂ ∧
      (∀ y ∈ l₁, instKey y < instKey m) ∧
      (∀ y ∈ sampleInstallers, instKey y ≤ instKey m) :=
  latest_installer_selection sampleInstallers (by decide)

end BeyondTrust

namespace BeyondTrust

lemma lookup_isSome_iff (d : List (Option Int × List Installer))
    (g : Option Int) :
    (d.lookup g).isSome = true ↔ g ∈ d.map Prod.fst := by
  induction d with
  | nil => simp [List.lookup]
  | cons p d ih =>
    obtain ⟨k, v⟩ := p
    dsimp [List.lookup]
    by_cases h : g == k
    · have hg : g = k := eq_of_beq h
      simp [h, hg]
    · have hg : ¬ g = k := fun he => h (by simp [he])
      simp [h, hg, ih]

lemma fst_map_bucketAppend (d : List (Option Int × List Installer))
    (x : Installer) :
    (d.map (fun p =>
        if p.1 == x.jump_group_id then (p.1, p.2 ++ [x]) else p)).map
      Prod.fst = d.map Prod.fst := by
  induction d with
  | nil => rfl
  | cons p d ih =>
    dsimp
    rw [ih]
    congr 1
    split <;> rfl

lemma fst_addInstaller (d : List (Option Int × List Installer))
    (x : Installer) :
    (addInstaller d x).map Prod.fst =
      if x.jump_group_id ∈ d.map Prod.fst then d.map Prod.fst
      else d.map Prod.fst ++ [x.jump_group_id] := by
  unfold addInstaller
  by_cases hmem : x.jump_group_id ∈ d.map Prod.fst
  · rw [if_pos hmem, if_pos ((lookup_isSome_iff d x.jump_group_id).mpr hmem)]
    exact fst_map_bucketAppend d x
  · rw [if_neg hmem, if_neg
      (fun hs => hmem ((lookup_isSome_iff d x.jump_group_id).mp hs))]
    simp

lemma fst_foldl_addInstaller :
    ∀ (l : List Installer) (d : List (Option Int × List Installer)),
    (l.foldl addInstaller d).map Prod.fst =
      l.foldl (fun acc x =>
        if x.jump_group_id ∈ acc then acc else acc ++ [x.jump_group_id])
        (d.map Prod.fst) := by
  intro l
  induction l with
  | nil => intro d; rfl
  | cons x l ih =>
    intro d
    dsimp [List.foldl]
    rw [ih, fst_addInstaller]

lemma buckets_keys (l : List Installer) :
    (buildBuckets l).map Prod.fst =
      dedupFirst (l.map (fun x => x.jump_group_id)) := by
  unfold buildBuckets dedupFirst
  rw [fst_foldl_addInstaller l [], List.foldl_map]
  rfl

lemma buckets_nonempty :
    ∀ (l : List Installer) (d : List (Option Int × List Installer)),
    (∀ p ∈ d, p.2 ≠ []) → ∀ p ∈ l.foldl addInstaller d, p.2 ≠ [] := by
  intro l
  induction l with
  | nil => intro d hd; exact hd
  | cons x l ih =>
    intro d hd
    apply ih
    intro p hp
    unfold addInstaller at hp
    split at hp
    · obtain ⟨q, hq, rfl⟩ := List.mem_map.mp hp
      by_cases h : q.1 == x.jump_group_id
      · simp only [h, if_pos] at *
        simp
      · simp only [h] at *
        simp only [if_neg, Bool.false_eq_true, not_false_eq_true] at *
        exact hd q hq
    · rcases List.mem_append.mp hp with h | h
      · exact hd p h
      · simp only [List.mem_singleton] at h
        subst h
        simp

lemma summ_fold_names (site : String) (gmap : List (Int × String)) :
    ∀ (d : List (Option Int × List Installer))
      (init : List InstallerSummary),
    (∀ p ∈ d, p.2 ≠ []) →
    (d.foldl (summStep site gmap) init).map (fun s => s.JumpGroupName) =
      init.map (fun s => s.JumpGroupName) ++
        d.map (fun p => groupNameFor gmap p.1) := by
  intro d
  induction d with
  | nil => intro init h; simp
  | cons p d ih =>
    intro init h
    dsimp [List.foldl]
    rcases hs : sortDesc instKey p.2 with _ | ⟨latest, rest⟩
    · exfalso
      have hlen := sortDesc_length instKey p.2
      rw [hs] at hlen
      exact h p (List.mem_cons_self p d)
        (List.length_eq_zero.mp hlen.symm)
    · have hstep : summStep site gmap init p =
          init ++ [mkSummary site gmap p.1 latest] := by
        unfold summStep
        rw [hs]
      rw [hstep, ih (init ++ [mkSummary site gmap p.1 latest])
        (fun q hq => h q (List.mem_cons_of_mem p hq))]
      simp [mkSummary]

lemma summ_fold_mem (site : String) (gmap : List (Int × String)) :
    ∀ (d : List (Option Int × List Installer))
      (init : List InstallerSummary) (s : InstallerSummary),
    s ∈ d.foldl (summStep site gmap) init →
    s ∈ init ∨ ∃ gid latest, s = mkSummary site gmap gid latest := by
  intro d
  induction d with
  | nil => intro init s h; exact Or.inl h
  | cons p d ih =>
    intro init s h
    dsimp [List.foldl] at h
    rcases hs : sortDesc instKey p.2 with _ | ⟨latest, rest⟩
    · rw [show summStep site gmap init p = init by unfold summStep; rw [hs]] at h
      exact ih init s h
    · rw [show summStep site gmap init p =
          init ++ [mkSummary site gmap p.1 latest] by
            unfold summStep; rw [hs]] at h
      rcases ih (init ++ [mkSummary site gmap p.1 latest]) s h with hin | hex
      · rcases List.mem_append.mp hin with h1 | h2
        · exact Or.inl h1
        · right
          exact ⟨p.1, latest, by simpa using h2⟩
      · exact Or.inr hex

/-- C7: the aggregator yields exactly one summary per distinct
`jump_group_id` (including the missing-id bucket), in first-occurrence
order, with the group name falling back to `"Unknown Group (ID: {id})"`
when the id is absent from the map; every summary's Windows and Mac
download URLs are `{site}/download_client_connector?jc={installerId}`
with `&p=winNT-64-msi` and `&p=mac-osx-x86` respectively; and an empty
installer input yields an empty output. -/
theorem summarize_spec (site : String) (gmap : List (Int × String))
    (l : List Installer) :
    summarize site gmap [] = []
    ∧ (summarize site gmap l).map (fun s => s.JumpGroupName) =
        (dedupFirst (l.map (fun x => x.jump_group_id))).map
          (groupNameFor gmap)
    ∧ ∀ s ∈ summarize site gmap l,
        s.WindowsDownloadURL = site ++ "/download_client_connector?jc=" ++
          optStr s.InstallerID ++ "&p=winNT-64-msi"
        ∧ s.MacDownloadURL = site ++ "/download_client_connector?jc=" ++
          optStr s.InstallerID ++ "&p=mac-osx-x86" := by
  refine ⟨rfl, ?_, ?_⟩
  · by_cases hl : l.isEmpty
    · rw [List.isEmpty_iff] at hl
      subst hl
      rfl
    · unfold summarize
      rw [if_neg hl]
      rw [summ_fold_names site gmap (buildBuckets l) []
        (buckets_nonempty l [] (by simp))]
      rw [← buckets_keys, List.map_map]
      rfl
  · intro s hs
    unfold summarize at hs
    by_cases hl : l.isEmpty
    · rw [if_pos hl] at hs
      cases hs
    · rw [if_neg hl] at hs
      rcases summ_fold_mem site gmap (buildBuckets l) [] s hs with hin | hex
      · cases hin
      · obtain ⟨gid, latest, rfl⟩ := hex
        exact ⟨rfl, rfl⟩

theorem summarize_spec_witness :
    ((summarize "https://x.example" [(1, "Alpha")] sampleInstallers).map
        (fun s => s.JumpGroupName) =
      (dedupFirst (sampleInstallers.map (fun x => x.jump_group_id))).map
        (groupNameFor [(1, "Alpha")]))
    ∧ ({ JumpGroupName := "Alpha"
         InstallerName := some "b"
         InstallerID := some "i2"
         ExpirationDate := some "2024-06-01"
         WindowsDownloadURL :=
           "https://x.example/download_client_connector?jc=i2&p=winNT-64-msi"
         MacDownloadURL :=
           "https://x.example/download_client_connector?jc=i2&p=mac-osx-x86" } :
        InstallerSummary).WindowsDownloadURL =
      "https://x.example" ++ "/download_client_connector?jc=" ++
        optStr (some "i2") ++ "&p=winNT-64-msi" :=
  ⟨(summarize_spec "https://x.example" [(1, "Alpha")] sampleInstallers).2.1,
   ((summarize_spec "https://x.example" [(1, "Alpha")]
      sampleInstallers).2.2 _ (by decide)).1⟩

end BeyondTrust

namespace BeyondTrust

lemma assignPerms_all_ok (env : ProvisionEnv) (site : String)
    (gid : Option Int) (hok : ∀ k, env.permPostErr k = none) :
    ∀ (permissions_map : List (String × Perms)) (k : Nat),
      assignPerms env site gid permissions_map k =
        (permRequestsOf env site gid permissions_map, none) := by
  intro permissions_map
  induction permissions_map with
  | nil => intro k; rfl
  | cons e rest ih =>
    intro k
    obtain ⟨gname, perms⟩ := e
    dsimp [assignPerms, permRequestsOf]
    cases hl : env.lookup gname with
    | none =>
      rw [ih k]
      simp [permRequestsOf, List.filterMap_cons, hl]
    | some policy =>
      rw [hok k, ih (k + 1)]
      simp [permRequestsOf, List.filterMap_cons, hl]

/-- C4: after the group is created, a `permissions_map` entry whose
policy is not found is skipped and processing continues; when every
issued permission POST succeeds the created group is returned together
with exactly one POST per found entry, whose payload fields
`session_start_permission`, `session_manage_permission` and `is_admin`
default to `false` when the keys `start_session`, `manage`,
`administrator` are absent; and a non-2xx permission POST is not caught:
it aborts the remaining assignments and propagates. -/
theorem provisioning_spec (env : ProvisionEnv) (site : String)
    (permissions_map : List (String × Perms)) (created : JumpGroupResp)
    (hc : env.createResp = .ok created) :
    (∀ gname perms rest k, env.lookup gname = none →
        assignPerms env site created.id ((gname, perms) :: rest) k =
          assignPerms env site created.id rest k)
    ∧ ((∀ k, env.permPostErr k = none) →
        create_jump_group_with_permissions env site permissions_map =
          .ok (created, permRequestsOf env site created.id permissions_map))
    ∧ (∀ policy perms,
        (perms.start_session = none →
          (mkPermRequest site created.id policy
            perms).session_start_permission = false)
        ∧ (perms.manage = none →
            (mkPermRequest site created.id policy
              perms).session_manage_permission = false)
        ∧ (perms.administrator = none →
            (mkPermRequest site created.id policy perms).is_admin = false))
    ∧ (∀ gname perms rest k policy s, env.lookup gname = some policy →
        env.permPostErr k = some s →
        assignPerms env site created.id ((gname, perms) :: rest) k =
          ([mkPermRequest site created.id policy perms], some s))
    ∧ (∀ s, (assignPerms env site created.id permissions_map 0).2 = some s →
        create_jump_group_with_permissions env site permissions_map =
          .error s) := by
  refine ⟨?_, ?_, ?_, ?_, ?_⟩
  · intro gname perms rest k hl
    dsimp [assignPerms]
    rw [hl]
  · intro hok
    unfold create_jump_group_with_permissions
    rw [hc]
    dsimp only
    rw [assignPerms_all_ok env site created.id hok permissions_map 0]
  · intro policy perms
    refine ⟨fun h => ?_, fun h => ?_, fun h => ?_⟩ <;>
      simp [mkPermRequest, h]
  · intro gname perms rest k policy s hl hp
    dsimp [assignPerms]
    rw [hl, hp]
  · intro s hs
    unfold create_jump_group_with_permissions
    rw [hc]
    dsimp only
    rw [hs]

theorem provisioning_spec_witness :
    create_jump_group_with_permissions
      ⟨.ok ⟨some 7⟩,
       fun g => if g = "Team B" then some ⟨some 3, some "Team B"⟩ else none,
       fun _ => none⟩
      "https://x.example"
      [("Team A", ⟨none, none, none⟩), ("Team B", ⟨some true, none, none⟩)] =
      .ok (⟨some 7⟩,
        [{ url := "https://x.example/api/config/v1/jump-group/7/group-policy"
           group_policy_id := some 3
           session_start_permission := true
           session_manage_permission := false
           is_admin := false }]) :=
  (provisioning_spec
    ⟨.ok ⟨some 7⟩,
     fun g => if g = "Team B" then some ⟨some 3, some "Team B"⟩ else none,
     fun _ => none⟩
    "https://x.example"
    [("Team A", ⟨none, none, none⟩), ("Team B", ⟨some true, none, none⟩)]
    ⟨some 7⟩ rfl).2.1 (fun _ => rfl)

/-- C5: the jump-group creation POST of
`create_jump_group_with_permissions` is issued through
`_make_api_request` with `params={"name": name, "code_name": code_name}`,
which the `requests` library encodes into the URL query string, leaving
the request body empty — the `{name, code_name}` payload is NOT in the
HTTP request body.  Evaluated at a concrete failing input. -/
theorem jump_group_create_request_shape :
    jumpGroupCreateRequest "https://x.example" "A" "a" =
      { method := "POST"
        url := "https://x.example/api/config/v1/jump-group"
        queryParams := [("name", "A"), ("code_name", "a")]
        body := [] } := rfl

/-- C10: when the creation response is 2xx but lacks an `id`,
`create_jump_group_with_permissions` raises no error: it proceeds with a
`None` group id, issues its permission POSTs to a URL containing the
literal text `None` in place of the id, and returns the id-less
response object. -/
theorem missing_id_provisioning (env : ProvisionEnv) (site : String)
    (permissions_map : List (String × Perms)) (created : JumpGroupResp)
    (hc : env.createResp = .ok created) (hid : created.id = none)
    (hok : ∀ k, env.permPostErr k = none) :
    create_jump_group_with_permissions env site permissions_map =
      .ok (created, permRequestsOf env site none permissions_map)
    ∧ ∀ r ∈ permRequestsOf env site none permissions_map,
        r.url = site ++ "/api/config/v1/jump-group/" ++ "None" ++
          "/group-policy" := by
  constructor
  · unfold create_jump_group_with_permissions
    rw [hc]
    dsimp only
    rw [hid, assignPerms_all_ok env site none hok permissions_map 0]
  · intro r hr
    obtain ⟨e, he, hmap⟩ := List.mem_filterMap.mp hr
    obtain ⟨policy, hp, hreq⟩ := Option.map_eq_some'.mp hmap
    rw [← hreq]
    rfl

theorem missing_id_provisioning_witness :
    create_jump_group_with_permissions
      ⟨.ok ⟨none⟩, fun _ => some ⟨some 3, some "G"⟩, fun _ => none⟩
      "https://x" [("G", ⟨none, none, none⟩)] =
      .ok (⟨none⟩,
        [{ url := "https://x/api/config/v1/jump-group/None/group-policy"
           group_policy_id := some 3
           session_start_permission := false
           session_manage_permission := false
           is_admin := false }]) :=
  (missing_id_provisioning
    ⟨.ok ⟨none⟩, fun _ => some ⟨some 3, some "G"⟩, fun _ => none⟩
    "https://x" [("G", ⟨none, none, none⟩)] ⟨none⟩ rfl rfl
    (fun _ => rfl)).1

end BeyondTrust
